import Mathlib

/-!
Verification of the Secure Session Orchestrator (`bin/agentbox.js`) of the
agent-box repository.  The JavaScript source is shallowly embedded: each
JS function becomes an executable Lean definition over `List Char` / `String`,
JS regexes become decidable character-class predicates, the filesystem and
the clock become explicit parameters, and thrown errors become `Except`.
-/

namespace AgentBox

/-! ## Character classes and basic string operations (models of JS built-ins) -/

/-- Whitespace for JavaScript `String.prototype.trim` and the regex class `\s`
(the common code points; exotic Unicode spaces behave the same way for every
claim below because none of the validators treats them specially). -/
def isJsWhitespace (c : Char) : Bool :=
  c = ' ' || c = '\t' || c = '\n' || c = '\r' || c = '\x0b' || c = '\x0c' ||
  c = '\u00A0' || c = '\uFEFF' || c = '\u2028' || c = '\u2029'

/-- Model of JavaScript `String.prototype.trim` on the character list. -/
def jsTrim (cs : List Char) : List Char :=
  ((cs.dropWhile isJsWhitespace).reverse.dropWhile isJsWhitespace).reverse

/-- The regex `/[;&|`$(){}[\]<>]/` of `validateRepositoryUrl` (its
"dangerous characters that could be used for command injection"). -/
def isDangerousChar (c : Char) : Bool :=
  c = ';' || c = '&' || c = '|' || c = '`' || c = '$' || c = '(' || c = ')' ||
  c = '{' || c = '}' || c = '[' || c = ']' || c = '<' || c = '>'

/-- The regex `/[;&|`$(){}[\]<>~^:?*\\\s]/` of `validateBranchName`. -/
def isInvalidBranchChar (c : Char) : Bool :=
  isDangerousChar c || c = '~' || c = '^' || c = ':' || c = '?' || c = '*' ||
  c = '\\' || isJsWhitespace c

/-- The character class `[a-zA-Z0-9._-]` of `validateRepoName`'s
`validPattern`. -/
def isRepoNameChar (c : Char) : Bool :=
  (c.isAlpha && c.toNat < 128) || c.isDigit || c = '.' || c = '_' || c = '-'

/-- Substring test, modelling JavaScript `String.prototype.includes`. -/
def isSubstrOf (needle : List Char) : List Char → Bool
  | [] => needle.isEmpty
  | c :: rest => needle.isPrefixOf (c :: rest) || isSubstrOf needle rest

/-- Split a character list at its first `':'`: returns the part before and
the part after, or `none` when there is no colon. -/
def splitAtColon : List Char → Option (List Char × List Char)
  | [] => none
  | c :: rest =>
    if c = ':' then some ([], rest)
    else (splitAtColon rest).map (fun p => (c :: p.1, p.2))

/-! ## Model of the WHATWG URL parser (Node's `new URL`)

Restricted to what `validateRepositoryUrl` observes: scheme extraction and
validation, authority/host extraction (special schemes ignore leading
slashes; non-special schemes require `//` for an authority), port-digit
validation, forbidden host characters, and host lowercasing for special
schemes.  Tab/newline stripping, percent-encoding and IDNA mapping are not
modelled. -/

structure URLParts where
  protocol : String
  hostname : String
  deriving Repr, DecidableEq

/-- A character allowed inside a URL scheme after the first (`ALPHA / DIGIT /
"+" / "-" / "."`). -/
def isSchemeChar (c : Char) : Bool :=
  c.isAlpha || c.isDigit || c = '+' || c = '-' || c = '.'

/-- A valid URL scheme is a nonempty character list starting with a letter,
the remaining characters being scheme characters. -/
def isValidScheme : List Char → Bool
  | [] => false
  | c :: rest => c.isAlpha && rest.all isSchemeChar

/-- Special schemes of the WHATWG URL standard. -/
def specialSchemes : List (List Char) :=
  ["http".toList, "https".toList, "ws".toList, "wss".toList,
   "ftp".toList, "file".toList]

/-- Forbidden host code points (WHATWG): their presence makes host parsing
fail. -/
def isForbiddenHostChar (c : Char) : Bool :=
  c.toNat < 0x20 || c = ' ' || c = '#' || c = '/' || c = ':' || c = '<' ||
  c = '>' || c = '?' || c = '@' || c = '[' || c = '\\' || c = ']' ||
  c = '^' || c = '|' || c = '%' || c.toNat = 0x7f

/-- Drop everything up to and including the last `'@'` (the userinfo part of
an authority). -/
def afterLastAt (cs : List Char) : List Char :=
  ((cs.reverse.takeWhile (fun c => c ≠ '@'))).reverse

/-- Parse the host-and-port part of an authority: split at the first `':'`,
require the port to be all digits, validate and (for special schemes)
lowercase the host. -/
def parseHostPort (special : Bool) (hp : List Char) : Option (List Char) :=
  let host := hp.takeWhile (fun c => c ≠ ':')
  let rest := hp.dropWhile (fun c => c ≠ ':')
  let portOk := match rest with
    | [] => true
    | _ :: port => port.all Char.isDigit
  if portOk && host.all (fun c => !isForbiddenHostChar c) &&
      (!special || !host.isEmpty) then
    some (if special then host.map Char.toLower else host)
  else none

/-- Model of Node's `new URL(s)` (throwing becomes `none`). -/
def parseURL (cs : List Char) : Option URLParts :=
  match splitAtColon cs with
  | none => none
  | some (schemeRaw, rest) =>
    if isValidScheme schemeRaw then
      let scheme := schemeRaw.map Char.toLower
      let special := specialSchemes.contains scheme
      if special then
        -- special schemes skip any number of leading (back)slashes and
        -- always parse an authority
        let rest' := rest.dropWhile (fun c => c = '/' || c = '\\')
        let authority :=
          rest'.takeWhile (fun c => c ≠ '/' && c ≠ '\\' && c ≠ '?' && c ≠ '#')
        match parseHostPort true (afterLastAt authority) with
        | some host =>
          some { protocol := ⟨scheme ++ [':']⟩, hostname := ⟨host⟩ }
        | none => none
      else
        match rest with
        | '/' :: '/' :: rest' =>
          let authority :=
            rest'.takeWhile (fun c => c ≠ '/' && c ≠ '?' && c ≠ '#')
          match parseHostPort false (afterLastAt authority) with
          | some host =>
            some { protocol := ⟨scheme ++ [':']⟩, hostname := ⟨host⟩ }
          | none => none
        | _ =>
          -- opaque path: parses fine, with an empty hostname
          some { protocol := ⟨scheme ++ [':']⟩, hostname := "" }
    else none

/-! ## The SCP-style fallback pattern -/

/-- The class `[a-zA-Z0-9.-]` of the SCP pattern's host group. -/
def isScpHostChar (c : Char) : Bool :=
  (c.isAlpha && c.toNat < 128) || c.isDigit || c = '.' || c = '-'

/-- The path-group class of the SCP pattern: `[a-zA-Z0-9._-]` plus `'/'`. -/
def isScpPathChar (c : Char) : Bool :=
  isScpHostChar c || c = '_' || c = '/'

/-- After the colon, the regex requires one or more path characters followed
by a literal `.git` at the end of the string: the tail ends in `.git` and the
nonempty part before it is all path characters. -/
def scpPathOk (tail : List Char) : Bool :=
  5 ≤ tail.length &&
  tail.drop (tail.length - 4) == ['.', 'g', 'i', 't'] &&
  (tail.take (tail.length - 4)).all isScpPathChar

/-- Model of matching the `sshPattern` regex of `validateRepositoryUrl`:
anchored `git@`, a nonempty host group of `[a-zA-Z0-9.-]`, a colon, then a
nonempty path group ending in literal `.git`; returns the host group. -/
def scpMatch (cs : List Char) : Option (List Char) :=
  if cs.take 4 = ['g', 'i', 't', '@'] then
    match splitAtColon (cs.drop 4) with
    | some (host, tail) =>
      if host ≠ [] && host.all isScpHostChar && scpPathOk tail then some host
      else none
    | none => none
  else none

/-- JavaScript `String.prototype.startsWith` for a single character. -/
def jsStartsWithChar (c : Char) : List Char → Bool
  | [] => false
  | d :: _ => d = c

/-- JavaScript `String.prototype.endsWith` for a single character. -/
def jsEndsWithChar (c : Char) (cs : List Char) : Bool :=
  jsStartsWithChar c cs.reverse

/-! ## The three validators -/

/-- `trustedHosts` of `validateRepositoryUrl` (the parsed-URL allow-list). -/
def trustedHosts : List String :=
  ["github.com", "gitlab.com", "bitbucket.org", "dev.azure.com",
   "ssh.dev.azure.com"]

/-- `trustedSshHosts` of the SCP fallback inside `validateRepositoryUrl`. -/
def trustedSshHosts : List String :=
  ["github.com", "gitlab.com", "bitbucket.org"]

/-- The allowed protocols of `validateRepositoryUrl`. -/
def allowedProtocols : List String := ["https:", "ssh:", "git:"]

/-- The SCP fallback of `validateRepositoryUrl` (the body of its `catch`
block): executed whenever URL parsing fails or the inner protocol/hostname
checks throw. -/
def scpFallback (sanitized : List Char) : Except String String :=
  match scpMatch sanitized with
  | some host =>
    if trustedSshHosts.contains ⟨host⟩ then .ok ⟨sanitized⟩
    else .error "Untrusted SSH hostname"
  | none => .error "Invalid repository URL format"

/-- Embedding of `validateRepositoryUrl`.  The protocol and hostname errors
raised inside the JS `try` block are caught by its own `catch`, so they fall
through to the SCP fallback, exactly as here. -/
def validateRepositoryUrl (repoUrl : String) : Except String String :=
  if repoUrl.toList = [] then
    .error "Repository URL is required and must be a string"
  else
    let sanitized := jsTrim repoUrl.toList
    if sanitized.any isDangerousChar then
      .error "Repository URL contains invalid characters"
    else
      match parseURL sanitized with
      | some u =>
        if allowedProtocols.contains u.protocol then
          if trustedHosts.contains u.hostname then .ok ⟨sanitized⟩
          else scpFallback sanitized
        else scpFallback sanitized
      | none => scpFallback sanitized

/-- Embedding of `validateBranchName`. -/
def validateBranchName (branchName : String) : Except String String :=
  if branchName.toList = [] then
    .error "Branch name is required and must be a string"
  else
    let sanitized := jsTrim branchName.toList
    if sanitized.any isInvalidBranchChar then
      .error "Branch name contains invalid characters"
    else if jsStartsWithChar '-' sanitized || jsEndsWithChar '.' sanitized ||
        isSubstrOf ['.', '.'] sanitized then
      .error "Invalid branch name format"
    else if 250 < sanitized.length then
      .error "Branch name too long"
    else .ok ⟨sanitized⟩

/-- Embedding of `validateRepoName`. -/
def validateRepoName (repoName : String) : Except String String :=
  if repoName.toList = [] then
    .error "Repository name is required and must be a string"
  else
    let sanitized := jsTrim repoName.toList
    if !(sanitized ≠ [] && sanitized.all isRepoNameChar) then
      .error "Repository name contains invalid characters"
    else if isSubstrOf ['.', '.'] sanitized ||
        jsStartsWithChar '.' sanitized then
      .error "Invalid repository name format"
    else if 100 < sanitized.length then
      .error "Repository name too long"
    else .ok ⟨sanitized⟩

/-! ## Config discovery (`findOpenCodeConfigs`)

The filesystem (`fs.existsSync`) is an explicit oracle `String → Bool`. -/

/-- The result object of `findOpenCodeConfigs`. -/
structure ConfigDiscoveryResult where
  localShare : Option String
  config : Option String
  alternative : Option String
  all : List String
  deriving Repr, DecidableEq

/-- The fixed ordered candidate list `potentialPaths`. -/
def potentialPaths (homeDir : String) : List String :=
  [homeDir ++ "/.local/share/opencode",
   homeDir ++ "/.config/opencode",
   homeDir ++ "/.shared/opencode",
   homeDir ++ "/.opencode",
   homeDir ++ "/.local/opencode",
   homeDir ++ "/.config/opencode-ai"]

/-- JavaScript `String.prototype.includes` on `String`. -/
def strIncludes (sub s : String) : Bool := isSubstrOf sub.toList s.toList

/-- Embedding of `findOpenCodeConfigs`: filter the candidates through the
filesystem oracle, then classify each category by substring search
(`Array.prototype.find`). -/
def findOpenCodeConfigs (fsExists : String → Bool) (homeDir : String) :
    ConfigDiscoveryResult :=
  let foundConfigs := (potentialPaths homeDir).filter fsExists
  { localShare := foundConfigs.find? (strIncludes ".local/share/opencode")
    config := foundConfigs.find? (strIncludes ".config/opencode")
    alternative := foundConfigs.find? (strIncludes ".shared/opencode")
    all := foundConfigs }

/-! ## Session identifiers and container invocation (`runContainer`) -/

/-- One decimal digit as a character (used to model JavaScript's decimal
rendering of an integer in a template literal). -/
def digitChar (d : Nat) : Char :=
  match d with
  | 0 => '0' | 1 => '1' | 2 => '2' | 3 => '3' | 4 => '4'
  | 5 => '5' | 6 => '6' | 7 => '7' | 8 => '8' | 9 => '9' | _ => 'x'

/-- Decimal rendering of a natural number, modelling the JavaScript template
literal interpolation of the `Date.now()` timestamp. -/
def natToString (n : Nat) : String :=
  if n = 0 then "0" else ⟨((Nat.digits 10 n).map digitChar).reverse⟩

/-- `containerName` of `runContainer`, a function of the observed
`Date.now()` timestamp alone. -/
def containerName (timestamp : Nat) : String :=
  "opencode-box-container-" ++ natToString timestamp

/-- `stateVolume` of `runContainer`. -/
def stateVolumeName (timestamp : Nat) : String :=
  "opencode-box-state-" ++ natToString timestamp

/-- `workspaceVolume` of `runContainer`. -/
def workspaceVolumeName (timestamp : Nat) : String :=
  "opencode-box-workspace-" ++ natToString timestamp

/-- The validated repository information returned by `getRepoInfo`. -/
structure RepoInfo where
  url : String
  name : String
  branch : String
  deriving Repr, DecidableEq

/-- The `dockerArgs` array assembled by `runContainer` (variant shipped in
`bin/agentbox.js`): security flags, SSH-agent socket mount, validated
environment variables, conditional mounts, discovered config mounts, and the
two ephemeral volumes. -/
def dockerArgs (repoInfo : RepoInfo) (sshAuthSock : String)
    (sshDirExists gitconfigExists : Bool) (cfg : ConfigDiscoveryResult)
    (homeDir : String) (timestamp : Nat) : List String :=
  ["run", "-it", "--rm",
   "--name", containerName timestamp,
   "--security-opt", "no-new-privileges:true",
   "--cap-drop", "ALL",
   "--cap-add", "DAC_OVERRIDE",
   "--cap-add", "SETGID",
   "--cap-add", "SETUID",
   "--cap-add", "CHOWN",
   "--network", "bridge",
   "-v", sshAuthSock ++ ":/ssh-agent",
   "-e", "SSH_AUTH_SOCK=/ssh-agent",
   "-e", "REPO_URL=" ++ repoInfo.url,
   "-e", "REPO_NAME=" ++ repoInfo.name,
   "-e", "REPO_BRANCH=" ++ repoInfo.branch]
  ++ (if sshDirExists then ["-v", homeDir ++ "/.ssh:/host-ssh:ro"] else [])
  ++ (if gitconfigExists then
        ["-v", homeDir ++ "/.gitconfig:/home/node/.gitconfig:ro"]
      else [])
  ++ (match cfg.localShare with
      | some p => ["-v", p ++ ":/tmp/host-opencode-local-share:ro",
                   "-e", "HOST_OPENCODE_LOCAL_SHARE=/tmp/host-opencode-local-share"]
      | none => [])
  ++ (match cfg.config with
      | some p => ["-v", p ++ ":/tmp/host-opencode-config:ro",
                   "-e", "HOST_OPENCODE_CONFIG=/tmp/host-opencode-config"]
      | none => [])
  ++ ["-v", stateVolumeName timestamp ++ ":/home/node/.local/state",
      "-v", workspaceVolumeName timestamp ++ ":/workspace",
      "opencode-box", "/app/entrypoint.sh"]

/-! ## The exit handler (`child.on('exit', ...)` in `runContainer`) -/

/-- Observable outcome of the exit handler: the volume-removal requests
issued (in order), the cleanup warnings logged, and whether the handler
escalated to a fatal error. -/
structure CleanupOutcome where
  removalRequests : List String
  warnings : List String
  fatal : Bool
  deriving Repr, DecidableEq

/-- The `volumes.forEach` loop of the exit handler: each iteration issues the
`docker volume rm` request; a failure is caught inside the iteration and
logged as a warning, so the loop always proceeds to the next volume. -/
def cleanupVolumes (rmSucceeds : String → Bool) : List String → CleanupOutcome
  | [] => { removalRequests := [], warnings := [], fatal := false }
  | v :: rest =>
    let restOut := cleanupVolumes rmSucceeds rest
    { removalRequests := v :: restOut.removalRequests
      warnings := (if rmSucceeds v then [] else
                    ["Failed to clean up volume " ++ v]) ++ restOut.warnings
      fatal := false }

/-- Full observable outcome of the exit handler: the session log line chosen
from the exit code, plus the cleanup outcome. -/
structure ExitHandlerOutcome where
  sessionLog : String
  removalRequests : List String
  warnings : List String
  fatal : Bool
  deriving Repr, DecidableEq

/-- The exit handler of `runContainer`: logs success for exit code 0 and an
error line otherwise (`none` models a `null` code from a signal-killed
child), then removes both ephemeral volumes best-effort.  `rmSucceeds` is the
oracle for whether `docker volume rm` succeeds on a given volume. -/
def exitHandler (code : Option Int) (rmSucceeds : String → Bool)
    (timestamp : Nat) : ExitHandlerOutcome :=
  let result := cleanupVolumes rmSucceeds
    [stateVolumeName timestamp, workspaceVolumeName timestamp]
  { sessionLog := if code = some 0 then
      "OpenCode Box session completed successfully"
    else "OpenCode Box session ended with a nonzero exit code"
    removalRequests := result.removalRequests
    warnings := result.warnings
    fatal := result.fatal }

/-! ## `getRepoInfo` and the main flow -/

/-- Model of Node's `path.basename(p, ext)` (POSIX): drop trailing slashes,
take the segment after the last slash, then strip `ext` when the segment
properly ends with it. -/
def pathBasename (p : String) (ext : String) : String :=
  let noTrail := (p.toList.reverse.dropWhile (fun c => c = '/')).reverse
  let noTrail := if noTrail = [] && p.toList ≠ [] then ['/'] else noTrail
  let base := (noTrail.reverse.takeWhile (fun c => c ≠ '/')).reverse
  if base ≠ ext.toList && ext.toList.isSuffixOf base then
    ⟨base.take (base.length - ext.length)⟩
  else ⟨base⟩

/-- Embedding of `getRepoInfo`, with the (already-trimmed) outputs of the two
`git` queries as oracle inputs.  The repository name is derived from the
remote URL with `path.basename(remoteUrl, '.git')`; then the three
validators run in source order.  A thrown validation error is caught by the
surrounding `try` and turned into a fatal exit. -/
def getRepoInfo (remoteUrl currentBranch : String) : Except String RepoInfo :=
  let repoName := pathBasename remoteUrl ".git"
  match validateRepositoryUrl remoteUrl with
  | .error e => .error e
  | .ok validatedUrl =>
    match validateBranchName currentBranch with
    | .error e => .error e
    | .ok validatedBranch =>
      match validateRepoName repoName with
      | .error e => .error e
      | .ok validatedName =>
        .ok { url := validatedUrl, name := validatedName,
              branch := validatedBranch }

/-- Side effects on external state that `main` can perform after the
requirement checks. -/
inductive SideEffect where
  | imageBuild : SideEffect
  | containerSpawn : List String → SideEffect
  deriving Repr, DecidableEq

/-- The portion of `main` after `checkRequirements`: `getRepoInfo` (whose
validation failures exit with code 1 before anything else happens), then
`buildDockerImage` (a no-op when the image already exists), then
`runContainer`.  Returns the external side effects performed, in order, and
the process exit code at the point the flow ends. -/
def mainFlow (remoteUrl currentBranch : String) (imageExists : Bool)
    (sshAuthSock : String) (sshDirExists gitconfigExists : Bool)
    (fsExists : String → Bool) (homeDir : String) (timestamp : Nat) :
    List SideEffect × Nat :=
  match getRepoInfo remoteUrl currentBranch with
  | .error _ => ([], 1)
  | .ok repoInfo =>
    let buildEffects := if imageExists then [] else [SideEffect.imageBuild]
    let cfg := findOpenCodeConfigs fsExists homeDir
    let args := dockerArgs repoInfo sshAuthSock sshDirExists gitconfigExists
      cfg homeDir timestamp
    (buildEffects ++ [SideEffect.containerSpawn args], 0)

/-- Whether an `Except` result is an error (a thrown `ValidationError`). -/
def isErr : Except String String → Bool
  | .error _ => true
  | .ok _ => false

/-! ## Helper lemmas -/

/-- The thirteen characters of the dangerous-character regex, as a list. -/
def dangerousList : List Char :=
  [';', '&', '|', '`', '$', '(', ')', '{', '}', '[', ']', '<', '>']

lemma isDangerousChar_iff_mem {c : Char} :
    isDangerousChar c = true ↔ c ∈ dangerousList := by
  simp only [isDangerousChar, dangerousList, Bool.or_eq_true, decide_eq_true_eq,
    List.mem_cons, List.not_mem_nil, or_false]
  tauto

lemma dangerous_not_ws {c : Char} (h : isDangerousChar c = true) :
    isJsWhitespace c = false := by
  have hall : ∀ c ∈ dangerousList, isJsWhitespace c = false := by decide
  exact hall c (isDangerousChar_iff_mem.mp h)

lemma dangerous_not_repoNameChar {c : Char} (h : isDangerousChar c = true) :
    isRepoNameChar c = false := by
  have hall : ∀ c ∈ dangerousList, isRepoNameChar c = false := by decide
  exact hall c (isDangerousChar_iff_mem.mp h)

lemma scpHostChar_not_dangerous {c : Char} (h : isScpHostChar c = true) :
    isDangerousChar c = false := by
  by_contra hd
  rw [Bool.not_eq_false] at hd
  have hall : ∀ c ∈ dangerousList, isScpHostChar c = false := by decide
  rw [hall c (isDangerousChar_iff_mem.mp hd)] at h
  exact Bool.false_ne_true h

lemma scpPathChar_not_dangerous {c : Char} (h : isScpPathChar c = true) :
    isDangerousChar c = false := by
  by_contra hd
  rw [Bool.not_eq_false] at hd
  have hall : ∀ c ∈ dangerousList, isScpPathChar c = false := by decide
  rw [hall c (isDangerousChar_iff_mem.mp hd)] at h
  exact Bool.false_ne_true h

lemma mem_dropWhile_of_neg {p : Char → Bool} {c : Char} :
    ∀ {cs : List Char}, c ∈ cs → p c = false → c ∈ cs.dropWhile p
  | [], h, _ => absurd h (List.not_mem_nil c)
  | d :: cs, h, hc => by
    by_cases hd : p d = true
    · rw [List.dropWhile_cons_of_pos hd]
      rcases List.mem_cons.mp h with rfl | h'
      · rw [hd] at hc; exact absurd hc (by decide)
      · exact mem_dropWhile_of_neg h' hc
    · rw [List.dropWhile_cons_of_neg hd]
      exact h

lemma mem_jsTrim {c : Char} {cs : List Char} (h : c ∈ cs)
    (hc : isJsWhitespace c = false) : c ∈ jsTrim cs := by
  unfold jsTrim
  rw [List.mem_reverse]
  apply mem_dropWhile_of_neg _ hc
  rw [List.mem_reverse]
  exact mem_dropWhile_of_neg h hc

lemma dropWhile_eq_self_of_all {p : Char → Bool} :
    ∀ {cs : List Char}, (∀ c ∈ cs, p c = false) → cs.dropWhile p = cs
  | [], _ => rfl
  | d :: cs, h =>
    List.dropWhile_cons_of_neg (by rw [h d (List.mem_cons_self d cs)]; decide)

lemma jsTrim_eq_self {cs : List Char}
    (h : ∀ c ∈ cs, isJsWhitespace c = false) : jsTrim cs = cs := by
  unfold jsTrim
  rw [dropWhile_eq_self_of_all h]
  rw [dropWhile_eq_self_of_all (fun c hc => h c (List.mem_reverse.mp hc))]
  exact List.reverse_reverse cs

lemma splitAtColon_structure {cs : List Char} :
    ∀ {a b : List Char}, splitAtColon cs = some (a, b) →
      cs = a ++ ':' :: b ∧ ∀ c ∈ a, c ≠ ':' := by
  induction cs with
  | nil =>
    intro a b h
    rw [splitAtColon] at h
    exact Option.noConfusion h
  | cons d cs ih =>
    intro a b h
    rw [splitAtColon] at h
    by_cases hd : d = ':'
    · rw [if_pos hd] at h
      obtain ⟨ha, hb⟩ := Prod.mk.inj (Option.some.inj h)
      subst hd
      exact ⟨by rw [← ha, ← hb, List.nil_append],
        fun c hc => absurd (ha ▸ hc) (List.not_mem_nil c)⟩
    · rw [if_neg hd] at h
      cases hsp : splitAtColon cs with
      | none => rw [hsp] at h; exact Option.noConfusion h
      | some p =>
        obtain ⟨p1, p2⟩ := p
        rw [hsp] at h
        obtain ⟨ha, hb⟩ := Prod.mk.inj (Option.some.inj h)
        obtain ⟨hcs, hnc⟩ := ih (a := p1) (b := p2) hsp
        refine ⟨?_, ?_⟩
        · rw [← ha, ← hb, hcs]; rfl
        · intro c hc
          rw [← ha] at hc
          rcases List.mem_cons.mp hc with rfl | hc'
          · exact hd
          · exact hnc c hc'

lemma scpMatch_some_elim {cs h : List Char} (hm : scpMatch cs = some h) :
    cs.take 4 = ['g', 'i', 't', '@'] ∧
    ∃ tail, splitAtColon (cs.drop 4) = some (h, tail) ∧
      (h ≠ [] ∧ h.all isScpHostChar = true ∧ scpPathOk tail = true) := by
  rw [scpMatch] at hm
  by_cases htake : cs.take 4 = ['g', 'i', 't', '@']
  · rw [if_pos htake] at hm
    refine ⟨htake, ?_⟩
    cases hsp : splitAtColon (cs.drop 4) with
    | none => rw [hsp] at hm; exact Option.noConfusion hm
    | some p =>
      obtain ⟨host, tail⟩ := p
      rw [hsp] at hm
      have hm' : (if (decide (host ≠ []) && host.all isScpHostChar &&
          scpPathOk tail) = true then some host else none) = some h := hm
      by_cases hcond :
          (decide (host ≠ []) && host.all isScpHostChar && scpPathOk tail) = true
      · rw [if_pos hcond] at hm'
        obtain rfl := Option.some.inj hm'
        simp only [Bool.and_eq_true, decide_eq_true_eq] at hcond
        exact ⟨tail, rfl, hcond.1.1, hcond.1.2, hcond.2⟩
      · rw [if_neg hcond] at hm'; exact Option.noConfusion hm' 
  · rw [if_neg htake] at hm; exact Option.noConfusion hm

lemma scpMatch_some_structure {cs h : List Char} (hm : scpMatch cs = some h) :
    cs = 'g' :: 'i' :: 't' :: '@' :: cs.drop 4 := by
  have htake := (scpMatch_some_elim hm).1
  conv_lhs => rw [← List.take_append_drop 4 cs]
  rw [htake]
  rfl

lemma parseURL_eq_none_of_scpMatch {cs h : List Char}
    (hm : scpMatch cs = some h) : parseURL cs = none := by
  obtain ⟨htake, tail, hsplit, -, -, -⟩ := scpMatch_some_elim hm
  have hcs := scpMatch_some_structure hm
  rw [hcs]
  have hfull : splitAtColon ('g' :: 'i' :: 't' :: '@' :: cs.drop 4) =
      some ('g' :: 'i' :: 't' :: '@' :: h, tail) := by
    rw [splitAtColon, if_neg (by decide)]
    rw [splitAtColon, if_neg (by decide)]
    rw [splitAtColon, if_neg (by decide)]
    rw [splitAtColon, if_neg (by decide)]
    rw [hsplit]
    rfl
  have hsch : isValidScheme ('g' :: 'i' :: 't' :: '@' :: h) = false := by
    simp [isValidScheme, List.all_cons, show isSchemeChar '@' = false by decide]
  simp only [parseURL, hfull, hsch, Bool.false_eq_true, if_false]

lemma digitChar_inj : ∀ d₁ < 10, ∀ d₂ < 10, digitChar d₁ = digitChar d₂ → d₁ = d₂ := by
  decide

lemma map_digitChar_inj : ∀ {l₁ l₂ : List Nat}, (∀ d ∈ l₁, d < 10) →
    (∀ d ∈ l₂, d < 10) → l₁.map digitChar = l₂.map digitChar → l₁ = l₂
  | [], [], _, _, _ => rfl
  | [], _ :: _, _, _, h => by simp at h
  | _ :: _, [], _, _, h => by simp at h
  | d₁ :: l₁, d₂ :: l₂, h₁, h₂, h => by
    simp only [List.map_cons, List.cons.injEq] at h
    have hd := digitChar_inj d₁ (h₁ d₁ (List.mem_cons_self d₁ l₁))
      d₂ (h₂ d₂ (List.mem_cons_self d₂ l₂)) h.1
    have hl := map_digitChar_inj (fun d hd => h₁ d (List.mem_cons_of_mem _ hd))
      (fun d hd => h₂ d (List.mem_cons_of_mem _ hd)) h.2
    rw [hd, hl]

lemma string_data_inj {s t : String} (h : s.data = t.data) : s = t := by
  cases s; cases t; exact congrArg String.mk h

lemma natToString_ne_zero_eq {n : Nat} (hn : n ≠ 0) :
    natToString n = ⟨((Nat.digits 10 n).map digitChar).reverse⟩ := by
  rw [natToString, if_neg hn]

lemma natToString_inj {a b : Nat} (h : natToString a = natToString b) : a = b := by
  have hdata := congrArg String.data h
  by_cases ha : a = 0 <;> by_cases hb : b = 0
  · rw [ha, hb]
  · exfalso
    rw [ha, show natToString 0 = "0" from rfl, natToString_ne_zero_eq hb] at hdata
    have hmap : (Nat.digits 10 b).map digitChar = ['0'] := by
      have := congrArg List.reverse hdata
      simpa using this.symm
    cases hd : Nat.digits 10 b with
    | nil => rw [hd] at hmap; simp at hmap
    | cons d rest =>
      rw [hd] at hmap
      simp only [List.map_cons, List.cons.injEq, List.map_eq_nil_iff] at hmap
      obtain ⟨hchar, hrest⟩ := hmap
      have hd10 : d < 10 := Nat.digits_lt_base (by norm_num)
        (by rw [hd]; exact List.mem_cons_self d rest)
      have hd0 : d = 0 := digitChar_inj d hd10 0 (by norm_num) hchar
      have : b = 0 := by
        have := Nat.ofDigits_digits 10 b
        rw [hd, hrest, hd0] at this
        simpa [Nat.ofDigits] using this.symm
      exact hb this
  · exfalso
    rw [hb, show natToString 0 = "0" from rfl, natToString_ne_zero_eq ha] at hdata
    have hmap : (Nat.digits 10 a).map digitChar = ['0'] := by
      have := congrArg List.reverse hdata
      simpa using this
    cases hd : Nat.digits 10 a with
    | nil => rw [hd] at hmap; simp at hmap
    | cons d rest =>
      rw [hd] at hmap
      simp only [List.map_cons, List.cons.injEq, List.map_eq_nil_iff] at hmap
      obtain ⟨hchar, hrest⟩ := hmap
      have hd10 : d < 10 := Nat.digits_lt_base (by norm_num)
        (by rw [hd]; exact List.mem_cons_self d rest)
      have hd0 : d = 0 := digitChar_inj d hd10 0 (by norm_num) hchar
      have : a = 0 := by
        have := Nat.ofDigits_digits 10 a
        rw [hd, hrest, hd0] at this
        simpa [Nat.ofDigits] using this.symm
      exact ha this
  · rw [natToString_ne_zero_eq ha, natToString_ne_zero_eq hb] at hdata
    have hmap : (Nat.digits 10 a).map digitChar = (Nat.digits 10 b).map digitChar := by
      have := congrArg List.reverse hdata
      simpa using this
    have hdig := map_digitChar_inj
      (fun d hd => Nat.digits_lt_base (by norm_num) hd)
      (fun d hd => Nat.digits_lt_base (by norm_num) hd) hmap
    exact Nat.digits.injective 10 hdig

/-- Appending the rendered timestamp to a fixed prefix is injective in the
timestamp. -/
lemma prefix_append_natToString_inj (p : String) {t₁ t₂ : Nat}
    (h : p ++ natToString t₁ = p ++ natToString t₂) : t₁ = t₂ := by
  apply natToString_inj
  apply string_data_inj
  have := congrArg String.data h
  rw [String.data_append, String.data_append] at this
  exact List.append_cancel_left this

lemma scpMatch_chars_not_dangerous {cs host : List Char}
    (hm : scpMatch cs = some host) : cs.any isDangerousChar = false := by
  obtain ⟨htake, tail, hsplit, -, hhost, hpath⟩ := scpMatch_some_elim hm
  obtain ⟨hdropeq, -⟩ := splitAtColon_structure hsplit
  rw [Bool.eq_false_iff]
  intro hany
  obtain ⟨c, hc, hd⟩ := List.any_eq_true.mp hany
  have hcs : cs = ['g', 'i', 't', '@'] ++ (host ++ ':' :: tail) := by
    conv_lhs => rw [← List.take_append_drop 4 cs]
    rw [htake, hdropeq]
  rw [hcs] at hc
  rcases List.mem_append.mp hc with h4 | hrest
  · simp only [List.mem_cons, List.not_mem_nil, or_false] at h4
    rcases h4 with rfl | rfl | rfl | rfl <;> exact absurd hd (by decide)
  · rcases List.mem_append.mp hrest with hhostmem | htailmem
    · rw [scpHostChar_not_dangerous (List.all_eq_true.mp hhost c hhostmem)] at hd
      exact Bool.noConfusion hd
    · rcases List.mem_cons.mp htailmem with rfl | htl
      · exact absurd hd (by decide)
      · simp only [scpPathOk, Bool.and_eq_true, decide_eq_true_eq] at hpath
        obtain ⟨⟨-, hdrop⟩, htakeall⟩ := hpath
        rw [← List.take_append_drop (tail.length - 4) tail] at htl
        rcases List.mem_append.mp htl with h1 | h2
        · rw [scpPathChar_not_dangerous (List.all_eq_true.mp htakeall c h1)] at hd
          exact Bool.noConfusion hd
        · rw [eq_of_beq hdrop] at h2
          simp only [List.mem_cons, List.not_mem_nil, or_false] at h2
          rcases h2 with rfl | rfl | rfl | rfl <;> exact absurd hd (by decide)

/-! ## Claim theorems -/

/-- C1: for every input string whose trimmed form parses as a URL with a
hostname outside the fixed `trustedHosts` allow-list, `validateRepositoryUrl`
fails with an error, regardless of the URL's scheme — the internal
catch-and-fallback to SCP-style matching never lets such a URL through. -/
theorem urlValidator_rejects_untrusted_parsed_host (s : String) (u : URLParts)
    (hp : parseURL (jsTrim s.toList) = some u)
    (hu : trustedHosts.contains u.hostname = false) :
    isErr (validateRepositoryUrl s) = true := by
  have hscp : scpMatch (jsTrim s.toList) = none := by
    cases hm : scpMatch (jsTrim s.toList) with
    | none => rfl
    | some h =>
      rw [parseURL_eq_none_of_scpMatch hm] at hp
      exact Option.noConfusion hp
  unfold validateRepositoryUrl
  by_cases hne : s.toList = []
  · rw [if_pos hne]
    rfl
  · rw [if_neg hne]
    dsimp only
    cases hdang : (jsTrim s.toList).any isDangerousChar with
    | true =>
      rw [if_pos rfl]
      rfl
    | false =>
      rw [if_neg (fun h => Bool.noConfusion h)]
      rw [hp]
      dsimp only
      have hfb : isErr (scpFallback (jsTrim s.toList)) = true := by
        rw [scpFallback, hscp]
        rfl
      by_cases hprot : allowedProtocols.contains u.protocol = true
      · rw [if_pos hprot, if_neg (by rw [hu]; exact Bool.noConfusion)]
        exact hfb
      · rw [if_neg hprot]
        exact hfb

/-- Witness for C1 at the concrete input `https://evil.com/repo.git`. -/
theorem urlValidator_rejects_untrusted_parsed_host_witness :
    parseURL (jsTrim "https://evil.com/repo.git".toList) =
      some ⟨"https:", "evil.com"⟩ ∧
    trustedHosts.contains "evil.com" = false ∧
    isErr (validateRepositoryUrl "https://evil.com/repo.git") = true :=
  ⟨by decide, by decide,
    urlValidator_rejects_untrusted_parsed_host "https://evil.com/repo.git"
      ⟨"https:", "evil.com"⟩ (by decide) (by decide)⟩

/-- C2: every string containing a character of the shell-metacharacter set is
rejected by all three validators. -/
theorem validators_reject_shell_metacharacters (s : String) (c : Char)
    (hc : c ∈ s.toList) (hd : isDangerousChar c = true) :
    isErr (validateRepositoryUrl s) = true ∧
    isErr (validateBranchName s) = true ∧
    isErr (validateRepoName s) = true := by
  have hne : ¬ s.toList = [] := fun h => absurd (h ▸ hc) (List.not_mem_nil c)
  have hmem : c ∈ jsTrim s.toList := mem_jsTrim hc (dangerous_not_ws hd)
  refine ⟨?_, ?_, ?_⟩
  · have hany : (jsTrim s.toList).any isDangerousChar = true :=
      List.any_eq_true.mpr ⟨c, hmem, hd⟩
    unfold validateRepositoryUrl
    rw [if_neg hne]
    dsimp only
    rw [if_pos hany]
    rfl
  · have hany : (jsTrim s.toList).any isInvalidBranchChar = true :=
      List.any_eq_true.mpr ⟨c, hmem, by
        rw [isInvalidBranchChar, hd]
        rfl⟩
    unfold validateBranchName
    rw [if_neg hne]
    dsimp only
    rw [if_pos hany]
    rfl
  · have hnotall : (jsTrim s.toList).all isRepoNameChar = false := by
      rw [Bool.eq_false_iff]
      intro hall
      have := List.all_eq_true.mp hall c hmem
      rw [dangerous_not_repoNameChar hd] at this
      exact Bool.noConfusion this
    unfold validateRepoName
    rw [if_neg hne]
    dsimp only
    rw [hnotall]
    rw [if_pos (by rw [Bool.and_false]; rfl)]
    rfl

/-- Witness for C2 at the concrete input `a;b` with the metacharacter `;`. -/
theorem validators_reject_shell_metacharacters_witness :
    isErr (validateRepositoryUrl "a;b") = true ∧
    isErr (validateBranchName "a;b") = true ∧
    isErr (validateRepoName "a;b") = true :=
  validators_reject_shell_metacharacters "a;b" ';' (by decide) (by decide)

/-- C3 counterexample: the SCP fallback does not apply the same allow-list as
the parsed-URL path.  `git@dev.azure.com:org/project.git` is SCP-style, its
host `dev.azure.com` is in `trustedHosts` and its path is well-formed, yet
`validateRepositoryUrl` rejects it. -/
theorem scpFallback_rejects_trusted_url_host :
    scpMatch (jsTrim "git@dev.azure.com:org/project.git".toList) =
      some "dev.azure.com".toList ∧
    trustedHosts.contains "dev.azure.com" = true ∧
    isErr (validateRepositoryUrl "git@dev.azure.com:org/project.git") = true :=
  ⟨by decide, by decide, by decide⟩

/-- C3 (amended): the SCP fallback applies its own, smaller allow-list
`trustedSshHosts` (github.com, gitlab.com, bitbucket.org) to the matched
host, not the parsed-URL allow-list: an SCP-style input is accepted when its
matched host is in `trustedSshHosts` and rejected when it is not. -/
theorem scpFallback_uses_ssh_allowlist (s : String) (host : List Char)
    (hm : scpMatch (jsTrim s.toList) = some host) :
    (trustedSshHosts.contains ⟨host⟩ = true →
      validateRepositoryUrl s = .ok ⟨jsTrim s.toList⟩) ∧
    (trustedSshHosts.contains ⟨host⟩ = false →
      isErr (validateRepositoryUrl s) = true) := by
  have hne : ¬ s.toList = [] := by
    intro h
    rw [h] at hm
    rw [show scpMatch (jsTrim []) = none from rfl] at hm
    exact Option.noConfusion hm
  have hdang : (jsTrim s.toList).any isDangerousChar = false :=
    scpMatch_chars_not_dangerous hm
  have hurl : parseURL (jsTrim s.toList) = none :=
    parseURL_eq_none_of_scpMatch hm
  constructor
  · intro hin
    unfold validateRepositoryUrl
    rw [if_neg hne]
    dsimp only
    rw [if_neg (by rw [hdang]; exact Bool.noConfusion)]
    rw [hurl]
    dsimp only
    rw [scpFallback, hm]
    dsimp only
    rw [if_pos hin]
  · intro hout
    unfold validateRepositoryUrl
    rw [if_neg hne]
    dsimp only
    rw [if_neg (by rw [hdang]; exact Bool.noConfusion)]
    rw [hurl]
    dsimp only
    rw [scpFallback, hm]
    dsimp only
    rw [if_neg (by rw [hout]; exact Bool.noConfusion)]
    rfl

/-- Witness for C3 (amended) at `git@github.com:user/repo.git` (accepted) and
`git@example.com:user/repo.git` (rejected). -/
theorem scpFallback_uses_ssh_allowlist_witness :
    validateRepositoryUrl "git@github.com:user/repo.git" =
      .ok "git@github.com:user/repo.git" ∧
    isErr (validateRepositoryUrl "git@example.com:user/repo.git") = true :=
  ⟨(scpFallback_uses_ssh_allowlist "git@github.com:user/repo.git"
      "github.com".toList (by decide)).1 (by decide),
   (scpFallback_uses_ssh_allowlist "git@example.com:user/repo.git"
      "example.com".toList (by decide)).2 (by decide)⟩

/-- C6 counterexample: `" main "` contains a whitespace character yet
`validateBranchName` accepts it (the validator trims before checking and
returns the trimmed string `"main"`). -/
theorem branchValidator_accepts_whitespace_padded_input :
    (' ' ∈ " main ".toList) ∧ validateBranchName " main " = .ok "main" :=
  ⟨by decide, rfl⟩

/-- C6 (amended): the branch validator rejects the empty string, and rejects
any input whose trimmed form still contains a whitespace character; leading
and trailing whitespace is trimmed away rather than rejected. -/
theorem branchValidator_rejects_empty_and_inner_whitespace (s : String)
    (h : s.toList = [] ∨ ∃ c ∈ jsTrim s.toList, isJsWhitespace c = true) :
    isErr (validateBranchName s) = true := by
  by_cases hne : s.toList = []
  · unfold validateBranchName
    rw [if_pos hne]
    rfl
  · rcases h with h | ⟨c, hmem, hws⟩
    · exact absurd h hne
    · have hany : (jsTrim s.toList).any isInvalidBranchChar = true :=
        List.any_eq_true.mpr ⟨c, hmem, by rw [isInvalidBranchChar, hws]; simp⟩
      unfold validateBranchName
      rw [if_neg hne]
      dsimp only
      rw [if_pos hany]
      rfl

/-- Witness for C6 (amended) at the concrete input `a b`. -/
theorem branchValidator_rejects_empty_and_inner_whitespace_witness :
    isErr (validateBranchName "a b") = true :=
  branchValidator_rejects_empty_and_inner_whitespace "a b"
    (Or.inr ⟨' ', by decide, by decide⟩)

set_option maxRecDepth 8192 in
/-- C7: over inputs made of otherwise-valid branch characters, a leading `-`,
a trailing `.`, or an embedded `..` is rejected; every input of exactly 251
such characters is rejected; the 250-character input `aaa…a` is accepted. -/
theorem branchValidator_format_and_length (s : String)
    (hvalid : ∀ c ∈ s.toList, isInvalidBranchChar c = false) :
    ((jsStartsWithChar '-' s.toList || jsEndsWithChar '.' s.toList ||
        isSubstrOf ['.', '.'] s.toList) = true →
      isErr (validateBranchName s) = true) ∧
    (s.toList.length = 251 → isErr (validateBranchName s) = true) ∧
    validateBranchName ⟨List.replicate 250 'a'⟩ =
      .ok ⟨List.replicate 250 'a'⟩ := by
  have hws : ∀ c ∈ s.toList, isJsWhitespace c = false := by
    intro c hc
    have h := hvalid c hc
    rw [isInvalidBranchChar] at h
    exact (Bool.or_eq_false_iff.mp h).2
  have htrim : jsTrim s.toList = s.toList := jsTrim_eq_self hws
  have hany : (jsTrim s.toList).any isInvalidBranchChar = false := by
    rw [htrim, Bool.eq_false_iff]
    intro h
    obtain ⟨c, hc, hinv⟩ := List.any_eq_true.mp h
    rw [hvalid c hc] at hinv
    exact Bool.noConfusion hinv
  have herr : ¬ s.toList = [] →
      (jsStartsWithChar '-' s.toList || jsEndsWithChar '.' s.toList ||
        isSubstrOf ['.', '.'] s.toList) = true →
      isErr (validateBranchName s) = true := by
    intro hne hfmt
    unfold validateBranchName
    rw [if_neg hne]
    dsimp only
    rw [if_neg (by rw [hany]; exact Bool.noConfusion)]
    rw [htrim, if_pos hfmt]
    rfl
  refine ⟨?_, ?_, ?_⟩
  · intro hfmt
    have hne : ¬ s.toList = [] := by
      intro h
      rw [h] at hfmt
      exact absurd hfmt (by decide)
    exact herr hne hfmt
  · intro hlen
    have hne : ¬ s.toList = [] := by
      intro h
      rw [h] at hlen
      exact absurd hlen (by decide)
    cases hfmt : (jsStartsWithChar '-' s.toList || jsEndsWithChar '.' s.toList ||
        isSubstrOf ['.', '.'] s.toList) with
    | true => exact herr hne hfmt
    | false =>
      unfold validateBranchName
      rw [if_neg hne]
      dsimp only
      rw [if_neg (by rw [hany]; exact Bool.noConfusion)]
      rw [htrim]
      rw [if_neg (by rw [hfmt]; exact Bool.noConfusion)]
      rw [if_pos (by rw [hlen]; decide)]
      rfl
  · rfl

/-- Witness for C7 at the concrete inputs `-x` (leading dash, rejected) and
`b..c` (embedded dots, rejected). -/
theorem branchValidator_format_and_length_witness :
    isErr (validateBranchName "-x") = true ∧
    isErr (validateBranchName "b..c") = true :=
  ⟨(branchValidator_format_and_length "-x" (by decide)).1 (by decide),
   (branchValidator_format_and_length "b..c" (by decide)).1 (by decide)⟩

lemma stateVolumeName_ne_workspaceVolumeName (t : Nat) :
    stateVolumeName t ≠ workspaceVolumeName t := by
  intro h
  have h2 := congrArg (fun s => s.data[13]?) h
  simp only [stateVolumeName, workspaceVolumeName, String.data_append] at h2
  rw [List.getElem?_append_left (by decide),
    List.getElem?_append_left (by decide)] at h2
  rw [show ("opencode-box-state-".data)[13]? = some 's' from rfl,
    show ("opencode-box-workspace-".data)[13]? = some 'w' from rfl] at h2
  exact absurd (Option.some.inj h2) (by decide)

/-- C4 counterexample: with only `~/.shared/opencode` existing, the discovery
result's primary `config` category stays empty — it does not resolve to the
alternative path, which lands only in the `alternative` category. -/
theorem configDiscovery_no_promotion_counterexample :
    (findOpenCodeConfigs (fun p => p == "/home/user/.shared/opencode")
      "/home/user").config = none ∧
    (findOpenCodeConfigs (fun p => p == "/home/user/.shared/opencode")
      "/home/user").alternative = some "/home/user/.shared/opencode" :=
  ⟨rfl, rfl⟩

/-- C4 (amended): when `~/.shared/opencode` exists and neither
`~/.config/opencode` nor `~/.config/opencode-ai` exists, discovery records the
path only under the `alternative` category and leaves the primary `config`
category empty: the shipped discovery code performs no promotion. -/
theorem configDiscovery_alternative_not_promoted (fsEx : String → Bool)
    (hshared : fsEx "/home/user/.shared/opencode" = true)
    (hcfg : fsEx "/home/user/.config/opencode" = false)
    (hai : fsEx "/home/user/.config/opencode-ai" = false) :
    (findOpenCodeConfigs fsEx "/home/user").config = none ∧
    (findOpenCodeConfigs fsEx "/home/user").alternative =
      some "/home/user/.shared/opencode" := by
  have hs' : fsEx ("/home/user" ++ "/.shared/opencode") = true := hshared
  have hc' : fsEx ("/home/user" ++ "/.config/opencode") = false := hcfg
  have ha' : fsEx ("/home/user" ++ "/.config/opencode-ai") = false := hai
  unfold findOpenCodeConfigs potentialPaths
  simp only [List.filter_cons, List.filter_nil, hs', hc', ha']
  cases h1 : fsEx ("/home/user" ++ "/.local/share/opencode") <;>
    cases h4 : fsEx ("/home/user" ++ "/.opencode") <;>
      cases h5 : fsEx ("/home/user" ++ "/.local/opencode") <;>
        simp only [if_true, if_false, Bool.false_eq_true, ite_false, ite_true] <;>
        exact ⟨rfl, rfl⟩

/-- Witness for C4 (amended) at the concrete one-directory filesystem. -/
theorem configDiscovery_alternative_not_promoted_witness :
    (findOpenCodeConfigs (fun p => p == "/home/user/.shared/opencode")
      "/home/user").config = none ∧
    (findOpenCodeConfigs (fun p => p == "/home/user/.shared/opencode")
      "/home/user").alternative = some "/home/user/.shared/opencode" :=
  configDiscovery_alternative_not_promoted
    (fun p => p == "/home/user/.shared/opencode") (by decide) (by decide)
    (by decide)

/-- C5 counterexample: the session names are a function of the observed
`Date.now()` millisecond value alone.  Modelling an invocation as a pair
(invocation id, observed timestamp), two distinct concurrent invocations that
read the same millisecond clock value receive identical names, refuting
guaranteed collision-freedom for all pairs of distinct invocations. -/
theorem sessionNames_collide_same_millisecond :
    ¬ (∀ inv₁ inv₂ : Nat × Nat, inv₁ ≠ inv₂ →
        containerName inv₁.2 ≠ containerName inv₂.2) := by
  intro h
  exact h (0, 1700000000000) (1, 1700000000000) (by decide) rfl

/-- C5 (amended): the container and the two ephemeral volume names are
injective in the observed timestamp: two runs whose `Date.now()` readings
differ get distinct names; only runs observing the same millisecond value
collide. -/
theorem sessionNames_injective_in_timestamp (t₁ t₂ : Nat) (h : t₁ ≠ t₂) :
    containerName t₁ ≠ containerName t₂ ∧
    stateVolumeName t₁ ≠ stateVolumeName t₂ ∧
    workspaceVolumeName t₁ ≠ workspaceVolumeName t₂ :=
  ⟨fun he => h (prefix_append_natToString_inj "opencode-box-container-" he),
   fun he => h (prefix_append_natToString_inj "opencode-box-state-" he),
   fun he => h (prefix_append_natToString_inj "opencode-box-workspace-" he)⟩

/-- Witness for C5 (amended) at the timestamps 1 and 2. -/
theorem sessionNames_injective_in_timestamp_witness :
    containerName 1 ≠ containerName 2 ∧
    stateVolumeName 1 ≠ stateVolumeName 2 ∧
    workspaceVolumeName 1 ≠ workspaceVolumeName 2 :=
  sessionNames_injective_in_timestamp 1 2 (by decide)

/-- C8: on child exit with any exit code (including a `null` code), the exit
handler requests removal of the state and the workspace volume exactly once
each, never escalates to a fatal error, and a removal failure on either
volume only contributes a warning while the other removal is still
attempted. -/
theorem exitHandler_cleanup_exactly_once (code : Option Int)
    (rm : String → Bool) (t : Nat) :
    (exitHandler code rm t).removalRequests =
      [stateVolumeName t, workspaceVolumeName t] ∧
    (exitHandler code rm t).removalRequests.count (stateVolumeName t) = 1 ∧
    (exitHandler code rm t).removalRequests.count (workspaceVolumeName t) = 1 ∧
    (exitHandler code rm t).fatal = false ∧
    (exitHandler code rm t).warnings =
      (if rm (stateVolumeName t) then [] else
        ["Failed to clean up volume " ++ stateVolumeName t]) ++
      (if rm (workspaceVolumeName t) then [] else
        ["Failed to clean up volume " ++ workspaceVolumeName t]) := by
  have hne := stateVolumeName_ne_workspaceVolumeName t
  refine ⟨rfl, ?_, ?_, rfl, ?_⟩
  · show List.count (stateVolumeName t)
      [stateVolumeName t, workspaceVolumeName t] = 1
    simp [List.count_cons, hne, Ne.symm hne]
  · show List.count (workspaceVolumeName t)
      [stateVolumeName t, workspaceVolumeName t] = 1
    simp [List.count_cons, hne, Ne.symm hne]
  · show (if rm (stateVolumeName t) then [] else
        ["Failed to clean up volume " ++ stateVolumeName t]) ++
      ((if rm (workspaceVolumeName t) then [] else
        ["Failed to clean up volume " ++ workspaceVolumeName t]) ++ []) = _
    rw [List.append_nil]

/-- Witness for C8 at exit code 0, timestamp 7, and an always-succeeding
removal oracle. -/
theorem exitHandler_cleanup_exactly_once_witness :
    (exitHandler (some 0) (fun _ => true) 7).removalRequests =
      [stateVolumeName 7, workspaceVolumeName 7] :=
  (exitHandler_cleanup_exactly_once (some 0) (fun _ => true) 7).1

/-- C9: whenever one of the three validations fails on the repository data,
the main flow stops with exit code 1 and performs no external side effect:
no image build, no container spawn, and no ephemeral volume name reaches any
effect. -/
theorem mainFlow_validation_failure_aborts_before_side_effects
    (remoteUrl currentBranch : String) (imageExists : Bool)
    (sock : String) (sshD gitC : Bool) (fsEx : String → Bool)
    (home : String) (t : Nat)
    (h : isErr (validateRepositoryUrl remoteUrl) = true ∨
         isErr (validateBranchName currentBranch) = true ∨
         isErr (validateRepoName (pathBasename remoteUrl ".git")) = true) :
    mainFlow remoteUrl currentBranch imageExists sock sshD gitC fsEx home t =
      ([], 1) := by
  obtain ⟨msg, hmsg⟩ : ∃ msg, getRepoInfo remoteUrl currentBranch = .error msg := by
    unfold getRepoInfo
    dsimp only
    cases hu : validateRepositoryUrl remoteUrl with
    | error e => exact ⟨e, rfl⟩
    | ok vu =>
      cases hb : validateBranchName currentBranch with
      | error e => exact ⟨e, rfl⟩
      | ok vb =>
        cases hn : validateRepoName (pathBasename remoteUrl ".git") with
        | error e => exact ⟨e, rfl⟩
        | ok vn =>
          exfalso
          rcases h with h | h | h
          · rw [hu] at h; exact Bool.noConfusion h
          · rw [hb] at h; exact Bool.noConfusion h
          · rw [hn] at h; exact Bool.noConfusion h
  unfold mainFlow
  rw [hmsg]

/-- Witness for C9 at a remote URL with an untrusted host. -/
theorem mainFlow_validation_failure_aborts_witness :
    mainFlow "https://evil.com/widgets.git" "main" false "/sock" false false
      (fun _ => false) "/home/user" 7 = ([], 1) :=
  mainFlow_validation_failure_aborts_before_side_effects
    "https://evil.com/widgets.git" "main" false "/sock" false false
    (fun _ => false) "/home/user" 7 (Or.inl (by decide))

/-- C10: when `~/.config/opencode` does not exist but `~/.config/opencode-ai`
does, substring matching on candidate paths resolves the `config` category to
the `~/.config/opencode-ai` path (it contains `.config/opencode` as a
substring), and the assembled docker invocation then mounts that directory
read-only at the staging path and exports `HOST_OPENCODE_CONFIG`. -/
theorem opencode_ai_fills_config_and_is_mounted (fsEx : String → Bool)
    (hcfg : fsEx "/home/user/.config/opencode" = false)
    (hai : fsEx "/home/user/.config/opencode-ai" = true) :
    (findOpenCodeConfigs fsEx "/home/user").config =
      some "/home/user/.config/opencode-ai" ∧
    ∀ (ri : RepoInfo) (sock : String) (sshD gitC : Bool) (t : Nat),
      ["-v", "/home/user/.config/opencode-ai:/tmp/host-opencode-config:ro",
       "-e", "HOST_OPENCODE_CONFIG=/tmp/host-opencode-config"] <:+:
        dockerArgs ri sock sshD gitC (findOpenCodeConfigs fsEx "/home/user")
          "/home/user" t := by
  have hc' : fsEx ("/home/user" ++ "/.config/opencode") = false := hcfg
  have ha' : fsEx ("/home/user" ++ "/.config/opencode-ai") = true := hai
  have hc : (findOpenCodeConfigs fsEx "/home/user").config =
      some ("/home/user" ++ "/.config/opencode-ai") := by
    unfold findOpenCodeConfigs potentialPaths
    simp only [List.filter_cons, List.filter_nil, hc', ha']
    cases h1 : fsEx ("/home/user" ++ "/.local/share/opencode") <;>
      cases h3 : fsEx ("/home/user" ++ "/.shared/opencode") <;>
        cases h4 : fsEx ("/home/user" ++ "/.opencode") <;>
          cases h5 : fsEx ("/home/user" ++ "/.local/opencode") <;>
            simp only [if_true, if_false, Bool.false_eq_true, ite_false,
              ite_true] <;>
            rfl
  refine ⟨hc, ?_⟩
  intro ri sock sshD gitC t
  unfold dockerArgs
  rw [hc]
  dsimp only
  rw [show ("/home/user" ++ "/.config/opencode-ai") ++
      ":/tmp/host-opencode-config:ro" =
      "/home/user/.config/opencode-ai:/tmp/host-opencode-config:ro" from rfl]
  exact List.infix_append _ _ _

/-- Witness for C10 at the concrete one-directory filesystem and a concrete
launch configuration. -/
theorem opencode_ai_fills_config_and_is_mounted_witness :
    (findOpenCodeConfigs (fun p => p == "/home/user/.config/opencode-ai")
      "/home/user").config = some "/home/user/.config/opencode-ai" ∧
    ["-v", "/home/user/.config/opencode-ai:/tmp/host-opencode-config:ro",
     "-e", "HOST_OPENCODE_CONFIG=/tmp/host-opencode-config"] <:+:
      dockerArgs ⟨"https://github.com/acme/widgets.git", "widgets", "main"⟩
        "/sock" false false
        (findOpenCodeConfigs (fun p => p == "/home/user/.config/opencode-ai")
          "/home/user") "/home/user" 7 :=
  ⟨(opencode_ai_fills_config_and_is_mounted
      (fun p => p == "/home/user/.config/opencode-ai") (by decide)
      (by decide)).1,
   (opencode_ai_fills_config_and_is_mounted
      (fun p => p == "/home/user/.config/opencode-ai") (by decide)
      (by decide)).2
     ⟨"https://github.com/acme/widgets.git", "widgets", "main"⟩ "/sock"
     false false 7⟩

end AgentBox
